import Mathlib

/-!
Shallow embedding of the DNS-01 challenge orchestration core of the `lemur`
repository (files `src/lemur/plugins/lemur_acme/ultradns.py` and
`src/lemur/plugins/lemur_acme/acme_handlers.py`), together with theorems
settling the specification claims about it.

Python strings are embedded as Lean `String`; the handful of Python string
primitives the code uses (`str.endswith`, `str.startswith`, `str.lower`,
`str.count`, `str.split`, `str.join`) are embedded as explicit functions over
the underlying character lists so that all definitions are executable and all
proofs go through the kernel.
-/

namespace LemurAcme

/-! ### Python string primitives -/

/-- Embedding of Python `s.startswith(t)`. -/
def pyStartsWith (s t : String) : Bool := t.data.isPrefixOf s.data

/-- Embedding of Python `s.endswith(t)`: `t` is a plain character-string
suffix of `s` (no label-boundary requirement). -/
def pyEndsWith (s t : String) : Bool := t.data.isSuffixOf s.data

/-- Embedding of Python `s.lower()` (ASCII case folding). -/
def pyLower (s : String) : String := String.mk (s.data.map Char.toLower)

/-- Embedding of Python `s.count(".")`: number of dot characters in `s`. -/
def dotCount (s : String) : Nat := s.data.count '.'

/-- Auxiliary for `pySplitDot`: splits a character list at every dot,
accumulating the current (reversed) fragment. -/
def splitDotAux : List Char → List Char → List String
  | [], cur => [String.mk cur.reverse]
  | c :: rest, cur =>
    if c = '.' then String.mk cur.reverse :: splitDotAux rest []
    else splitDotAux rest (c :: cur)

/-- Embedding of Python `s.split(".")`. -/
def pySplitDot (s : String) : List String := splitDotAux s.data []

/-- Embedding of Python `".".join(parts)`. -/
def joinDot : List String → String
  | [] => ""
  | [x] => x
  | x :: xs => x ++ "." ++ joinDot xs

/-! ### ultradns.py: get_zone_name

Source (`ultradns.py`, lines 161-175):

    zone_name = ""
    for z in zones:
        if domain.endswith(z):
            if z.count(".") > zone_name.count("."):
                zone_name = z
    if not zone_name:
        raise Exception("No UltraDNS zone found for domain: ...")
    return zone_name

The zone list is passed explicitly (the source obtains it from
`get_zones(account_number)`, a network call). Raising is embedded as
`Option.none`. -/

/-- Loop body of `get_zone_name`. -/
def gzStep (domain : String) (zone_name z : String) : String :=
  if pyEndsWith domain z then
    if dotCount zone_name < dotCount z then z else zone_name
  else zone_name

/-- Embedding of `get_zone_name` (`ultradns.py:161`); `none` stands for the
raised `Exception("No UltraDNS zone found ...")`. -/
def get_zone_name (domain : String) (zones : List String) : Option String :=
  let zone_name := zones.foldl (gzStep domain) ""
  if zone_name = "" then none else some zone_name

/-! ### get_zone_name lemmas -/

lemma dotCount_le_gzStep (domain zn z : String) :
    dotCount zn ≤ dotCount (gzStep domain zn z) := by
  unfold gzStep
  split
  · split
    · exact Nat.le_of_lt (by assumption)
    · exact Nat.le_refl _
  · exact Nat.le_refl _

lemma dotCount_le_foldl_gzStep (domain : String) :
    ∀ (l : List String) (zn : String),
      dotCount zn ≤ dotCount (l.foldl (gzStep domain) zn) := by
  intro l
  induction l with
  | nil => intro zn; exact Nat.le_refl _
  | cons z l ih =>
    intro zn
    simp only [List.foldl_cons]
    exact Nat.le_trans (dotCount_le_gzStep domain zn z) (ih (gzStep domain zn z))

lemma foldl_gzStep_max (domain : String) :
    ∀ (l : List String) (zn z : String), z ∈ l → pyEndsWith domain z = true →
      dotCount z ≤ dotCount (l.foldl (gzStep domain) zn) := by
  intro l
  induction l with
  | nil => intro zn z hz; exact absurd hz (List.not_mem_nil z)
  | cons w l ih =>
    intro zn z hz hend
    simp only [List.foldl_cons]
    rcases List.mem_cons.mp hz with h | h
    · subst h
      have hstep : dotCount z ≤ dotCount (gzStep domain zn z) := by
        unfold gzStep
        rw [if_pos hend]
        split
        · exact Nat.le_refl _
        · exact Nat.le_of_not_lt (by assumption)
      exact Nat.le_trans hstep (dotCount_le_foldl_gzStep domain l _)
    · exact ih (gzStep domain zn w) z h hend

lemma foldl_gzStep_cases (domain : String) :
    ∀ (l : List String) (zn : String),
      l.foldl (gzStep domain) zn = zn ∨
      (l.foldl (gzStep domain) zn ∈ l ∧
        pyEndsWith domain (l.foldl (gzStep domain) zn) = true ∧
        dotCount zn < dotCount (l.foldl (gzStep domain) zn)) := by
  intro l
  induction l with
  | nil => intro zn; exact Or.inl rfl
  | cons w l ih =>
    intro zn
    simp only [List.foldl_cons]
    rcases ih (gzStep domain zn w) with h | ⟨hmem, hend, hlt⟩
    · rw [h]
      by_cases hew : pyEndsWith domain w = true
      · by_cases hdw : dotCount zn < dotCount w
        · right
          have hw : gzStep domain zn w = w := by
            unfold gzStep; rw [if_pos hew, if_pos hdw]
          rw [hw]
          exact ⟨List.mem_cons_self w l, hew, hdw⟩
        · left
          unfold gzStep; rw [if_pos hew, if_neg hdw]
      · left
        unfold gzStep; rw [if_neg hew]
    · right
      refine ⟨List.mem_cons_of_mem w hmem, hend, ?_⟩
      exact Nat.lt_of_le_of_lt (dotCount_le_gzStep domain zn w) hlt

/-- C1 (amended): `get_zone_name` returns, among all zones that are plain
character-string suffixes of the domain and contain at least one dot, one
attaining the greatest number of dots; it fails (raises) exactly when every
zone that is a string suffix of the domain is dot-free. -/
theorem get_zone_name_spec : ∀ (domain : String) (zones : List String),
    (∀ z, get_zone_name domain zones = some z →
      z ∈ zones ∧ pyEndsWith domain z = true ∧ 1 ≤ dotCount z ∧
        ∀ z' ∈ zones, pyEndsWith domain z' = true → dotCount z' ≤ dotCount z) ∧
    (get_zone_name domain zones = none ↔
      ∀ z ∈ zones, pyEndsWith domain z = true → dotCount z = 0) := by
  intro domain zones
  constructor
  · intro z hz
    unfold get_zone_name at hz
    simp only at hz
    split at hz
    · exact absurd hz (by simp)
    · rename_i hne
      have hz' : zones.foldl (gzStep domain) "" = z := by
        exact Option.some.inj hz
      rcases foldl_gzStep_cases domain zones "" with h | ⟨hmem, hend, hlt⟩
      · exact absurd h hne
      · rw [hz'] at hmem hend hlt
        refine ⟨hmem, hend, ?_, ?_⟩
        · have : dotCount "" = 0 := rfl
          omega
        · intro z' hz'mem hz'end
          have := foldl_gzStep_max domain zones "" z' hz'mem hz'end
          rw [hz'] at this
          exact this
  · constructor
    · intro hnone z hz hend
      unfold get_zone_name at hnone
      simp only at hnone
      split at hnone
      · rename_i heq
        have := foldl_gzStep_max domain zones "" z hz hend
        rw [heq] at this
        have h0 : dotCount "" = 0 := rfl
        omega
      · exact absurd hnone (by simp)
    · intro hall
      unfold get_zone_name
      simp only
      split
      · rfl
      · rename_i hne
        exfalso
        rcases foldl_gzStep_cases domain zones "" with h | ⟨hmem, hend, hlt⟩
        · exact hne h
        · have := hall _ hmem hend
          have h0 : dotCount "" = 0 := rfl
          omega

/-- C1 witness: instantiation of the amended statement at a concrete zone
list: for domain `a.b.example.com` with zones `example.com` and
`b.example.com`, the most specific zone `b.example.com` is returned and it
dominates all matching zones. -/
theorem get_zone_name_spec_witness :
    "b.example.com" ∈ ["example.com", "b.example.com"] ∧
    pyEndsWith "a.b.example.com" "b.example.com" = true ∧
    1 ≤ dotCount "b.example.com" ∧
    ∀ z' ∈ ["example.com", "b.example.com"],
      pyEndsWith "a.b.example.com" z' = true → dotCount z' ≤ dotCount "b.example.com" :=
  (get_zone_name_spec "a.b.example.com" ["example.com", "b.example.com"]).1
    "b.example.com" (by decide)

/-- C1 counterexample: the claim as stated is false on the code in both
directions. First, `fooexample.com` matches zone `example.com` by plain
string suffix even though `example.com` is not a label-boundary suffix of it
(the claim requires failure here, the code returns the zone). Second, for
domain `example.com` and zone `com`, the zone is a label-boundary suffix
(the claim requires it to be returned), yet the code raises because `com`
contains no dot and the dot-count comparison is strict against the initial
empty string. -/
theorem get_zone_name_cex :
    get_zone_name "fooexample.com" ["example.com"] = some "example.com" ∧
    ¬("fooexample.com" = "example.com" ∨
      pyEndsWith "fooexample.com" ".example.com" = true) ∧
    get_zone_name "example.com" ["com"] = none ∧
    pyEndsWith "example.com" ".com" = true := by
  refine ⟨by decide, by decide, by decide, by decide⟩

/-! ### acme_handlers.py: data model -/

/-- A configured DNS provider as seen by `AcmeDnsHandler`
(`lemur.dns_providers` entity): `pid` identifies the provider account,
`domains` is its owned-zone suffix list, `provider_type` selects the backend
plugin, and `ext` is the optional `acme_challenge_extension` carried in its
credentials/options blob. -/
structure DnsProvider where
  pid : Nat
  provider_type : String
  domains : List String
  ext : Option String
deriving DecidableEq, Repr

/-! ### acme_handlers.py: autodetect_dns_providers

Source (`acme_handlers.py`, lines 421-440):

    self.dns_providers_for_domain[domain] = []
    match_length = 0
    for dns_provider in self.all_dns_providers:
        if not dns_provider.domains:
            continue
        for name in dns_provider.domains:
            if name == domain or domain.endswith("." + name):
                if len(name) > match_length:
                    self.dns_providers_for_domain[domain] = [dns_provider]
                    match_length = len(name)
                elif len(name) == match_length:
                    self.dns_providers_for_domain[domain].append(dns_provider)
-/

/-- Match condition of `autodetect_dns_providers`: the owned suffix `name`
equals the domain, or the domain ends with `"." + name`. -/
def suffixOwns (domain name : String) : Bool :=
  name == domain || pyEndsWith domain ("." ++ name)

/-- Inner-loop body of `autodetect_dns_providers`: state is the pair
(current provider list, current `match_length`). -/
def adBody (domain : String) (p : DnsProvider)
    (st : List DnsProvider × Nat) (name : String) : List DnsProvider × Nat :=
  if suffixOwns domain name then
    if st.2 < name.length then ([p], name.length)
    else if name.length = st.2 then (st.1 ++ [p], st.2)
    else st
  else st

/-- Embedding of `autodetect_dns_providers` (`acme_handlers.py:421`); the
configured provider list is passed explicitly and the computed entry of
`dns_providers_for_domain[domain]` is returned. The source's
`if not dns_provider.domains: continue` is kept as the empty-list branch. -/
def autodetect_dns_providers (domain : String) (all : List DnsProvider) :
    List DnsProvider :=
  (all.foldl
    (fun st p =>
      if p.domains = [] then st else p.domains.foldl (adBody domain p) st)
    ([], 0)).1

/-! ### autodetect_dns_providers lemmas -/

/-- The nested provider/name loops of `autodetect_dns_providers`, flattened
into one fold over (provider, name) pairs. -/
def allPairs (all : List DnsProvider) : List (DnsProvider × String) :=
  all.flatMap (fun p => p.domains.map (fun n => (p, n)))

lemma autodetect_foldl_flatten (domain : String) :
    ∀ (all : List DnsProvider) (st : List DnsProvider × Nat),
      all.foldl
        (fun st p =>
          if p.domains = [] then st else p.domains.foldl (adBody domain p) st)
        st
      = (allPairs all).foldl (fun st pr => adBody domain pr.1 st pr.2) st := by
  intro all
  induction all with
  | nil => intro st; rfl
  | cons p all ih =>
    intro st
    have hAP : allPairs (p :: all) =
        (p.domains.map (fun n => (p, n))) ++ allPairs all := by
      unfold allPairs; rw [List.flatMap_cons]
    rw [List.foldl_cons, hAP, List.foldl_append, List.foldl_map]
    by_cases hd : p.domains = []
    · rw [if_pos hd, hd]
      simp only [List.map_nil, List.foldl_nil]
      exact ih st
    · rw [if_neg hd]
      exact ih _

/-- Invariant of the flattened fold of `autodetect_dns_providers`: the final
`match_length` dominates every matching pair, and membership in the final
list is exactly matching at the final `match_length`. -/
lemma adPairFold_spec (domain : String) :
    ∀ (L : List (DnsProvider × String)) (lst : List DnsProvider) (m : Nat),
      (lst = [] → m = 0) →
      (∀ pr ∈ L, suffixOwns domain pr.2 = true →
        pr.2.length ≤ (L.foldl (fun st pr => adBody domain pr.1 st pr.2) (lst, m)).2) ∧
      m ≤ (L.foldl (fun st pr => adBody domain pr.1 st pr.2) (lst, m)).2 ∧
      (∀ q, q ∈ (L.foldl (fun st pr => adBody domain pr.1 st pr.2) (lst, m)).1 ↔
        ((q ∈ lst ∧ m = (L.foldl (fun st pr => adBody domain pr.1 st pr.2) (lst, m)).2) ∨
          ∃ pr, pr ∈ L ∧ pr.1 = q ∧ suffixOwns domain pr.2 = true ∧
            pr.2.length = (L.foldl (fun st pr => adBody domain pr.1 st pr.2) (lst, m)).2)) ∧
      ((L.foldl (fun st pr => adBody domain pr.1 st pr.2) (lst, m)).1 = [] →
        (L.foldl (fun st pr => adBody domain pr.1 st pr.2) (lst, m)).2 = 0) := by
  intro L
  induction L with
  | nil =>
    intro lst m h0
    refine ⟨by intro pr h; exact absurd h (List.not_mem_nil pr), Nat.le_refl m, ?_, h0⟩
    intro q
    constructor
    · intro h; exact Or.inl ⟨h, rfl⟩
    · rintro (⟨h, _⟩ | ⟨pr, hpr, _⟩)
      · exact h
      · exact absurd hpr (List.not_mem_nil pr)
  | cons pr0 L ih =>
    intro lst m h0
    obtain ⟨p, n⟩ := pr0
    simp only [List.foldl_cons]
    by_cases hmatch : suffixOwns domain n = true
    · by_cases hlt : m < n.length
      · -- reset branch: state becomes ([p], n.length)
        have hstep : adBody domain p (lst, m) n = ([p], n.length) := by
          unfold adBody; rw [if_pos hmatch, if_pos hlt]
        rw [hstep]
        have H := ih [p] n.length (by intro h; exact absurd h (by simp))
        obtain ⟨i1, i2, i3, i4⟩ := H
        refine ⟨?_, ?_, ?_, i4⟩
        · intro pr hpr hs
          rcases List.mem_cons.mp hpr with h | h
          · rw [h]; exact i2
          · exact i1 pr h hs
        · exact Nat.le_trans (Nat.le_of_lt hlt) i2
        · intro q
          rw [i3 q]
          constructor
          · rintro (⟨hq, hlen⟩ | ⟨pr, hpr, hq, hs, hlen⟩)
            · right
              refine ⟨(p, n), List.mem_cons_self _ _, ?_, hmatch, hlen⟩
              rcases List.mem_singleton.mp hq with h
              exact h.symm
            · exact Or.inr ⟨pr, List.mem_cons_of_mem _ hpr, hq, hs, hlen⟩
          · rintro (⟨hq, hlen⟩ | ⟨pr, hpr, hq, hs, hlen⟩)
            · exfalso
              have : m < (List.foldl (fun st pr => adBody domain pr.1 st pr.2) ([p], n.length) L).2 :=
                Nat.lt_of_lt_of_le hlt i2
              omega
            · rcases List.mem_cons.mp hpr with h | h
              · left
                refine ⟨?_, ?_⟩
                · rw [← hq, h]; exact List.mem_singleton_self p
                · rw [h] at hlen; exact hlen
              · exact Or.inr ⟨pr, h, hq, hs, hlen⟩
      · by_cases heq : n.length = m
        · -- append branch: state becomes (lst ++ [p], m)
          have hstep : adBody domain p (lst, m) n = (lst ++ [p], m) := by
            unfold adBody; rw [if_pos hmatch, if_neg hlt, if_pos heq]
          rw [hstep]
          have H := ih (lst ++ [p]) m (by intro h; exact absurd h (by simp))
          obtain ⟨i1, i2, i3, i4⟩ := H
          refine ⟨?_, i2, ?_, i4⟩
          · intro pr hpr hs
            rcases List.mem_cons.mp hpr with h | h
            · rw [h]; rw [show ((p, n) : DnsProvider × String).2 = n from rfl, heq]
              exact i2
            · exact i1 pr h hs
          · intro q
            rw [i3 q]
            constructor
            · rintro (⟨hq, hlen⟩ | ⟨pr, hpr, hq, hs, hlen⟩)
              · rcases List.mem_append.mp hq with h | h
                · exact Or.inl ⟨h, hlen⟩
                · right
                  refine ⟨(p, n), List.mem_cons_self _ _, ?_, hmatch, ?_⟩
                  · exact (List.mem_singleton.mp h).symm
                  · rw [show ((p, n) : DnsProvider × String).2 = n from rfl, heq]
                    exact hlen
              · exact Or.inr ⟨pr, List.mem_cons_of_mem _ hpr, hq, hs, hlen⟩
            · rintro (⟨hq, hlen⟩ | ⟨pr, hpr, hq, hs, hlen⟩)
              · exact Or.inl ⟨List.mem_append_left _ hq, hlen⟩
              · rcases List.mem_cons.mp hpr with h | h
                · left
                  have hn : n.length = (List.foldl (fun st pr => adBody domain pr.1 st pr.2) (lst ++ [p], m) L).2 := by
                    rw [h] at hlen; exact hlen
                  refine ⟨List.mem_append_right _ ?_, by omega⟩
                  rw [← hq, h]; exact List.mem_singleton_self p
                · exact Or.inr ⟨pr, h, hq, hs, hlen⟩
        · -- skip branch: matching but shorter than current match_length
          have hstep : adBody domain p (lst, m) n = (lst, m) := by
            unfold adBody; rw [if_pos hmatch, if_neg hlt, if_neg heq]
          rw [hstep]
          have H := ih lst m h0
          obtain ⟨i1, i2, i3, i4⟩ := H
          have hnm : n.length < m := by omega
          refine ⟨?_, i2, ?_, i4⟩
          · intro pr hpr hs
            rcases List.mem_cons.mp hpr with h | h
            · rw [h]
              exact Nat.le_trans (Nat.le_of_lt hnm) i2
            · exact i1 pr h hs
          · intro q
            rw [i3 q]
            constructor
            · rintro (⟨hq, hlen⟩ | ⟨pr, hpr, hq, hs, hlen⟩)
              · exact Or.inl ⟨hq, hlen⟩
              · exact Or.inr ⟨pr, List.mem_cons_of_mem _ hpr, hq, hs, hlen⟩
            · rintro (⟨hq, hlen⟩ | ⟨pr, hpr, hq, hs, hlen⟩)
              · exact Or.inl ⟨hq, hlen⟩
              · rcases List.mem_cons.mp hpr with h | h
                · exfalso
                  have : n.length = (List.foldl (fun st pr => adBody domain pr.1 st pr.2) (lst, m) L).2 := by
                    rw [h] at hlen; exact hlen
                  omega
                · exact Or.inr ⟨pr, h, hq, hs, hlen⟩
    · -- non-matching pair: state unchanged
      have hstep : adBody domain p (lst, m) n = (lst, m) := by
        unfold adBody; rw [if_neg hmatch]
      rw [hstep]
      have H := ih lst m h0
      obtain ⟨i1, i2, i3, i4⟩ := H
      refine ⟨?_, i2, ?_, i4⟩
      · intro pr hpr hs
        rcases List.mem_cons.mp hpr with h | h
        · exfalso; rw [h] at hs; exact hmatch hs
        · exact i1 pr h hs
      · intro q
        rw [i3 q]
        constructor
        · rintro (⟨hq, hlen⟩ | ⟨pr, hpr, hq, hs, hlen⟩)
          · exact Or.inl ⟨hq, hlen⟩
          · exact Or.inr ⟨pr, List.mem_cons_of_mem _ hpr, hq, hs, hlen⟩
        · rintro (⟨hq, hlen⟩ | ⟨pr, hpr, hq, hs, hlen⟩)
          · exact Or.inl ⟨hq, hlen⟩
          · rcases List.mem_cons.mp hpr with h | h
            · exfalso; rw [h] at hs; exact hmatch hs
            · exact Or.inr ⟨pr, h, hq, hs, hlen⟩

lemma mem_allPairs {all : List DnsProvider} {pr : DnsProvider × String} :
    pr ∈ allPairs all ↔ pr.1 ∈ all ∧ pr.2 ∈ pr.1.domains := by
  unfold allPairs
  simp only [List.mem_flatMap, List.mem_map]
  constructor
  · rintro ⟨p, hp, n, hn, rfl⟩
    exact ⟨hp, hn⟩
  · rintro ⟨hp, hn⟩
    exact ⟨pr.1, hp, pr.2, hn, rfl⟩

/-- C2: `autodetect_dns_providers` returns exactly the providers owning a
matching suffix (exact match, or the domain ends with `"." + suffix`) whose
length ties for the maximum over all providers; providers matching only at
shorter lengths are excluded, and the result is empty iff no provider owns
any suffix of the domain. -/
theorem autodetect_dns_providers_spec :
    ∀ (domain : String) (all : List DnsProvider),
      (∀ p, p ∈ autodetect_dns_providers domain all ↔
        (p ∈ all ∧ ∃ name, name ∈ p.domains ∧ suffixOwns domain name = true ∧
          ∀ q ∈ all, ∀ nm ∈ q.domains,
            suffixOwns domain nm = true → nm.length ≤ name.length)) ∧
      (autodetect_dns_providers domain all = [] ↔
        ∀ q ∈ all, ∀ nm ∈ q.domains, suffixOwns domain nm = false) := by
  intro domain all
  have hflat := autodetect_foldl_flatten domain all ([], 0)
  have H := adPairFold_spec domain (allPairs all) [] 0 (fun _ => rfl)
  obtain ⟨i1, _, i3, i4⟩ := H
  have hres : autodetect_dns_providers domain all =
      ((allPairs all).foldl (fun st pr => adBody domain pr.1 st pr.2) ([], 0)).1 := by
    unfold autodetect_dns_providers
    rw [hflat]
  constructor
  · intro p
    rw [hres, i3 p]
    constructor
    · rintro (⟨hp, _⟩ | ⟨pr, hpr, hq, hs, hlen⟩)
      · exact absurd hp (List.not_mem_nil p)
      · obtain ⟨hpall, hpdom⟩ := mem_allPairs.mp hpr
        rw [hq] at hpall hpdom
        refine ⟨hpall, pr.2, hpdom, hs, ?_⟩
        intro q hq' nm hnm hs'
        have : nm.length ≤ ((allPairs all).foldl (fun st pr => adBody domain pr.1 st pr.2) ([], 0)).2 :=
          i1 (q, nm) (mem_allPairs.mpr ⟨hq', hnm⟩) hs'
        omega
    · rintro ⟨hpall, name, hname, hs, hdom⟩
      right
      have hpair : (p, name) ∈ allPairs all := mem_allPairs.mpr ⟨hpall, hname⟩
      have hle : name.length ≤ ((allPairs all).foldl (fun st pr => adBody domain pr.1 st pr.2) ([], 0)).2 :=
        i1 (p, name) hpair hs
      have hge : ((allPairs all).foldl (fun st pr => adBody domain pr.1 st pr.2) ([], 0)).2 ≤ name.length := by
        cases hr : ((allPairs all).foldl (fun st pr => adBody domain pr.1 st pr.2) ([], 0)).1 with
        | nil =>
          have := i4 hr
          omega
        | cons q0 rest =>
          have hq0 : q0 ∈ ((allPairs all).foldl (fun st pr => adBody domain pr.1 st pr.2) ([], 0)).1 := by
            rw [hr]; exact List.mem_cons_self _ _
          rcases (i3 q0).mp hq0 with ⟨hin, _⟩ | ⟨pr, hpr, _, hs', hlen⟩
          · exact absurd hin (List.not_mem_nil q0)
          · obtain ⟨hq'all, hq'dom⟩ := mem_allPairs.mp hpr
            have := hdom pr.1 hq'all pr.2 hq'dom hs'
            omega
      refine ⟨(p, name), hpair, rfl, hs, ?_⟩
      show name.length = _
      omega
  · rw [hres]
    constructor
    · intro hempty q hq nm hnm
      by_contra hcon
      have hs : suffixOwns domain nm = true := by
        cases h : suffixOwns domain nm with
        | false => exact absurd h hcon
        | true => rfl
      have := i4 hempty
      have hle : nm.length ≤ ((allPairs all).foldl (fun st pr => adBody domain pr.1 st pr.2) ([], 0)).2 :=
        i1 (q, nm) (mem_allPairs.mpr ⟨hq, hnm⟩) hs
      have hlen0 : nm.length = ((allPairs all).foldl (fun st pr => adBody domain pr.1 st pr.2) ([], 0)).2 := by
        omega
      have : q ∈ ((allPairs all).foldl (fun st pr => adBody domain pr.1 st pr.2) ([], 0)).1 :=
        (i3 q).mpr (Or.inr ⟨(q, nm), mem_allPairs.mpr ⟨hq, hnm⟩, rfl, hs, hlen0⟩)
      rw [hempty] at this
      exact absurd this (List.not_mem_nil q)
    · intro hnone
      rw [List.eq_nil_iff_forall_not_mem]
      intro q hq
      rcases (i3 q).mp hq with ⟨hin, _⟩ | ⟨pr, hpr, _, hs, _⟩
      · exact absurd hin (List.not_mem_nil q)
      · obtain ⟨hall, hdom⟩ := mem_allPairs.mp hpr
        have := hnone pr.1 hall pr.2 hdom
        rw [this] at hs
        exact Bool.false_ne_true hs

/-! ### ultradns.py: wait_for_dns_change

Source (`ultradns.py`, lines 111-141):

    fqdn, token = change_id
    number_of_attempts = 20
    for attempts in range(0, number_of_attempts):
        status = _has_dns_propagated(fqdn, token, "156.154.64.154")
        if status:
            time.sleep(10)
            break
        time.sleep(10)
    if status:
        for attempts in range(0, number_of_attempts):
            status = _has_dns_propagated(fqdn, token, "8.8.8.8")
            if status:
                break
            time.sleep(10)
    if not status:
        metrics.send("wait_for_dns_change_fail", ...)
        sentry.captureException(...)
    return

Each `_has_dns_propagated` call is abstracted as a stub `Nat → Bool` giving
the result of the query on each (0-based) attempt; `_has_dns_propagated`
itself converts resolver exceptions to `False`, so the stub is total. The
function body contains no `raise` and no provider mutation: it only reports
failure through metrics/sentry, hence the embedding always returns `.ok`. -/

/-- One polling phase of `wait_for_dns_change`: runs the stub starting at
attempt index `start` with the given remaining budget; returns the number of
attempts performed and the final `status` value. -/
def pollPhase (stub : Nat → Bool) : Nat → Nat → Nat × Bool
  | _, 0 => (0, false)
  | start, b + 1 =>
    if stub start then (1, true)
    else
      let r := pollPhase stub (start + 1) b
      (r.1 + 1, r.2)

/-- Observable outcome of `wait_for_dns_change`: attempts performed in each
phase, whether phase 1 succeeded, whether phase 2 was entered, and the final
`status` (overall propagation success). -/
structure PollResult where
  attempts1 : Nat
  phase1 : Bool
  entered2 : Bool
  attempts2 : Nat
  propagated : Bool
deriving DecidableEq, Repr

/-- Embedding of `wait_for_dns_change` (`ultradns.py:111`), parameterized by
the authoritative-resolver and public-resolver query stubs. -/
def wait_for_dns_change (auth pub : Nat → Bool) : Except String PollResult :=
  let r1 := pollPhase auth 0 20
  if r1.2 then
    let r2 := pollPhase pub 0 20
    .ok ⟨r1.1, r1.2, true, r2.1, r2.2⟩
  else
    .ok ⟨r1.1, r1.2, false, 0, false⟩

/-! ### wait_for_dns_change lemmas -/

lemma pollPhase_first_success (stub : Nat → Bool) :
    ∀ (k start b : Nat), k < b → stub (start + k) = true →
      (∀ j, j < k → stub (start + j) = false) →
      pollPhase stub start b = (k + 1, true) := by
  intro k
  induction k with
  | zero =>
    intro start b hb hs _
    obtain ⟨b', rfl⟩ : ∃ b', b = b' + 1 := ⟨b - 1, by omega⟩
    rw [Nat.add_zero] at hs
    unfold pollPhase
    rw [hs]
    simp
  | succ k ih =>
    intro start b hb hs hf
    obtain ⟨b', rfl⟩ : ∃ b', b = b' + 1 := ⟨b - 1, by omega⟩
    have h0 : stub start = false := by
      have := hf 0 (Nat.succ_pos k)
      rwa [Nat.add_zero] at this
    unfold pollPhase
    rw [h0]
    simp only [Bool.false_eq_true, if_false]
    have hrec : pollPhase stub (start + 1) b' = (k + 1, true) := by
      refine ih (start + 1) b' (by omega) ?_ ?_
      · rw [show start + 1 + k = start + (k + 1) by omega]
        exact hs
      · intro j hj
        rw [show start + 1 + j = start + (j + 1) by omega]
        exact hf (j + 1) (by omega)
    rw [hrec]

lemma pollPhase_all_fail (stub : Nat → Bool) (h : ∀ j, stub j = false) :
    ∀ (b start : Nat), pollPhase stub start b = (b, false) := by
  intro b
  induction b with
  | zero => intro start; rfl
  | succ b ih =>
    intro start
    unfold pollPhase
    rw [h start]
    simp only [Bool.false_eq_true, if_false]
    rw [ih (start + 1)]

/-- C4: if the authoritative-phase stub first succeeds on (1-based) attempt
K ≤ 20, phase 1 performs exactly K attempts and exits with the propagation
flag set; if it never succeeds, phase 1 performs exactly 20 attempts, exits
unpropagated, and phase 2 is never entered; phase 2, when entered, has the
same structure with its own budget of 20 attempts. -/
theorem wait_for_dns_change_attempts :
    ∀ (auth pub : Nat → Bool) (K L : Nat),
      (1 ≤ K → K ≤ 20 → auth (K - 1) = true → (∀ j, j < K - 1 → auth j = false) →
        ∃ r, wait_for_dns_change auth pub = .ok r ∧
          r.attempts1 = K ∧ r.phase1 = true) ∧
      ((∀ j, auth j = false) →
        wait_for_dns_change auth pub = .ok ⟨20, false, false, 0, false⟩) ∧
      ((pollPhase auth 0 20).2 = true →
        1 ≤ L → L ≤ 20 → pub (L - 1) = true → (∀ j, j < L - 1 → pub j = false) →
        ∃ r, wait_for_dns_change auth pub = .ok r ∧
          r.entered2 = true ∧ r.attempts2 = L ∧ r.propagated = true) ∧
      ((pollPhase auth 0 20).2 = true → (∀ j, pub j = false) →
        ∃ r, wait_for_dns_change auth pub = .ok r ∧
          r.entered2 = true ∧ r.attempts2 = 20 ∧ r.propagated = false) := by
  intro auth pub K L
  refine ⟨?_, ?_, ?_, ?_⟩
  · intro h1 h20 hK hf
    have hp : pollPhase auth 0 20 = (K - 1 + 1, true) := by
      refine pollPhase_first_success auth (K - 1) 0 20 (by omega) ?_ ?_
      · rw [Nat.zero_add]; exact hK
      · intro j hj; rw [Nat.zero_add]; exact hf j hj
    have hK' : K - 1 + 1 = K := by omega
    rw [hK'] at hp
    unfold wait_for_dns_change
    rw [hp]
    exact ⟨_, rfl, rfl, rfl⟩
  · intro hf
    have hp : pollPhase auth 0 20 = (20, false) := pollPhase_all_fail auth hf 20 0
    unfold wait_for_dns_change
    rw [hp]
    rfl
  · intro hph1 h1 h20 hL hf
    have hp2 : pollPhase pub 0 20 = (L - 1 + 1, true) := by
      refine pollPhase_first_success pub (L - 1) 0 20 (by omega) ?_ ?_
      · rw [Nat.zero_add]; exact hL
      · intro j hj; rw [Nat.zero_add]; exact hf j hj
    have hL' : L - 1 + 1 = L := by omega
    rw [hL'] at hp2
    simp only [wait_for_dns_change]
    rw [hph1, hp2, if_pos rfl]
    exact ⟨_, rfl, rfl, rfl, rfl⟩
  · intro hph1 hf
    have hp2 : pollPhase pub 0 20 = (20, false) := pollPhase_all_fail pub hf 20 0
    simp only [wait_for_dns_change]
    rw [hph1, hp2, if_pos rfl]
    exact ⟨_, rfl, rfl, rfl, rfl⟩

/-- C4 witness: with a stub that succeeds on the first attempt of each
phase, phase 1 performs exactly one attempt and succeeds. -/
theorem wait_for_dns_change_attempts_witness :
    ∃ r, wait_for_dns_change (fun _ => true) (fun _ => true) = .ok r ∧
      r.attempts1 = 1 ∧ r.phase1 = true :=
  (wait_for_dns_change_attempts (fun _ => true) (fun _ => true) 1 1).1
    (by omega) (by omega) rfl (fun j hj => absurd hj (by omega))

/-- C5 counterexample: with stubs that never observe the record, the polling
budget is exhausted and `wait_for_dns_change` returns normally (`.ok`, with
the failure only reported through metrics/sentry); no `PropagationTimeout`
error is raised to the caller, contrary to the claim. -/
theorem wait_for_dns_change_timeout_cex :
    wait_for_dns_change (fun _ => false) (fun _ => false) =
      .ok ⟨20, false, false, 0, false⟩ := by
  have := (wait_for_dns_change_attempts (fun _ => false) (fun _ => false) 1 1).2.1
  exact this (fun _ => rfl)

/-- C5 (amended): `wait_for_dns_change` never raises: for every pair of
resolver stubs it returns `.ok`, and on budget exhaustion it returns the
unpropagated result (the failure is reported via metrics/sentry only, and
the poller performs no deletion of the created TXT record — its body
contains no provider mutation; cleanup is the caller's separate
responsibility). -/
theorem wait_for_dns_change_no_raise :
    ∀ (auth pub : Nat → Bool),
      (∃ r, wait_for_dns_change auth pub = .ok r) ∧
      ((∀ j, auth j = false) →
        wait_for_dns_change auth pub = .ok ⟨20, false, false, 0, false⟩) := by
  intro auth pub
  constructor
  · simp only [wait_for_dns_change]
    split
    · exact ⟨_, rfl⟩
    · exact ⟨_, rfl⟩
  · exact (wait_for_dns_change_attempts auth pub 1 1).2.1

/-- C5 witness: instantiation of the no-raise statement at a stub pair whose
authoritative phase never succeeds. -/
theorem wait_for_dns_change_no_raise_witness :
    wait_for_dns_change (fun _ => false) (fun _ => true) =
      .ok ⟨20, false, false, 0, false⟩ :=
  (wait_for_dns_change_no_raise (fun _ => false) (fun _ => true)).2 (fun _ => rfl)

/-! ### acme_handlers.py: challenge selection and record creation -/

/-- An ACME challenge combo as exposed by an authorization
(`combo.chall`): whether it is a DNS-01 challenge, and the TXT value
`combo.validation(key)` derives from the account key (abstracted as a
string, the key being fixed for a run). -/
structure Challenge where
  isDNS01 : Bool
  token : String
deriving DecidableEq, Repr

/-- An ACME authorization body (`authz.body`): identifier value, wildcard
flag, and its challenge list. -/
structure Authz where
  identifier : String
  wildcard : Bool
  challenges : List Challenge
deriving DecidableEq, Repr

/-- An `AuthorizationRecord` (`acme_handlers.py:38`); the external ACME
authorization objects themselves are irrelevant to the claims and omitted.
`change_id` records, per provider-create call, the hostname and token passed
to `create_txt_record`. -/
structure AuthorizationRecord where
  domain : String
  target_domain : String
  dns_challenge : List Challenge
  change_id : List (String × String)
deriving DecidableEq, Repr

/-- Embedding of `AcmeHandler.strip_wildcard` (`acme_handlers.py:72`):
removes a leading `*.` and reports whether it was removed. -/
def strip_wildcard (host : String) : String × Bool :=
  if pyStartsWith host "*." then (String.mk (host.data.drop 2), true)
  else (host, false)

/-- Embedding of `AcmeHandler.maybe_add_extension` (`acme_handlers.py:79`):
appends the provider's `acme_challenge_extension` when present and truthy
(`none` covers both absent options and an absent key; an empty string is
falsy in Python). -/
def maybe_add_extension (host : String) (ext : Option String) : String :=
  match ext with
  | some e => if e = "" then host else host ++ e
  | none => host

/-- Modelled from the spec: `dns_challenge.validation_domain_name(host)` of
the external ACME library is not part of this repository; per the spec the
canonical DNS-01 validation hostname is `"_acme-challenge." + host`. -/
def validation_domain_name (host : String) : String :=
  "_acme-challenge." ++ host

/-! ### get_dns_challenges

Source (`acme_handlers.py`, lines 264-280):

    domain_to_validate, is_wildcard = self.strip_wildcard(host)
    dns_challenges = []
    for authz in authorizations:
        if not authz.body.identifier.value.lower() == domain_to_validate.lower():
            continue
        if is_wildcard and not authz.body.wildcard:
            continue
        if not is_wildcard and authz.body.wildcard:
            continue
        for combo in authz.body.challenges:
            if isinstance(combo.chall, challenges.DNS01):
                dns_challenges.append(combo)
    return dns_challenges
-/

/-- Loop body of `get_dns_challenges` for one authorization, given the
stripped host and wildcard flag. -/
def gdcStep (stripped : String × Bool) (acc : List Challenge) (a : Authz) :
    List Challenge :=
  if ¬(pyLower a.identifier = pyLower stripped.1) then acc
  else if stripped.2 && !a.wildcard then acc
  else if !stripped.2 && a.wildcard then acc
  else acc ++ a.challenges.filter (fun c => c.isDNS01)

/-- Embedding of `get_dns_challenges` (`acme_handlers.py:264`). -/
def get_dns_challenges (host : String) (authzs : List Authz) : List Challenge :=
  authzs.foldl (gdcStep (strip_wildcard host)) []

/-! ### get_dns_challenges lemmas -/

lemma gdcStep_eq (stripped : String × Bool) (acc : List Challenge) (a : Authz) :
    gdcStep stripped acc a =
      acc ++
        (if pyLower a.identifier = pyLower stripped.1 ∧ a.wildcard = stripped.2
         then a.challenges.filter (fun c => c.isDNS01)
         else []) := by
  unfold gdcStep
  by_cases hid : pyLower a.identifier = pyLower stripped.1
  · rw [if_neg (by simp [hid])]
    cases hw : a.wildcard <;> cases hs : stripped.2 <;>
      simp [hid, hw, hs]
  · rw [if_pos hid]
    rw [if_neg (by simp [hid])]
    simp

lemma gdc_foldl (stripped : String × Bool) :
    ∀ (l : List Authz) (init : List Challenge),
      l.foldl (gdcStep stripped) init =
        init ++
          l.flatMap (fun a =>
            if pyLower a.identifier = pyLower stripped.1 ∧ a.wildcard = stripped.2
            then a.challenges.filter (fun c => c.isDNS01)
            else []) := by
  intro l
  induction l with
  | nil => intro init; simp
  | cons a l ih =>
    intro init
    rw [List.foldl_cons, ih, gdcStep_eq, List.flatMap_cons, List.append_assoc]

/-- Membership characterization of `get_dns_challenges`: a challenge is
selected iff it is a DNS-01 challenge of some authorization whose lowercased
identifier equals the lowercased wildcard-stripped host and whose wildcard
flag equals the host's wildcard prefix flag. -/
lemma mem_get_dns_challenges {host : String} {authzs : List Authz} {ch : Challenge} :
    ch ∈ get_dns_challenges host authzs ↔
      ∃ a, a ∈ authzs ∧ ch ∈ a.challenges ∧ ch.isDNS01 = true ∧
        pyLower a.identifier = pyLower (strip_wildcard host).1 ∧
        a.wildcard = (strip_wildcard host).2 := by
  unfold get_dns_challenges
  rw [gdc_foldl (strip_wildcard host) authzs []]
  simp only [List.nil_append, List.mem_flatMap]
  constructor
  · rintro ⟨a, ha, hmem⟩
    by_cases hc : pyLower a.identifier = pyLower (strip_wildcard host).1 ∧
        a.wildcard = (strip_wildcard host).2
    · rw [if_pos hc] at hmem
      obtain ⟨hin, hd⟩ := List.mem_filter.mp hmem
      exact ⟨a, ha, hin, hd, hc.1, hc.2⟩
    · rw [if_neg hc] at hmem
      exact absurd hmem (List.not_mem_nil ch)
  · rintro ⟨a, ha, hin, hd, hid, hw⟩
    refine ⟨a, ha, ?_⟩
    rw [if_pos ⟨hid, hw⟩]
    exact List.mem_filter.mpr ⟨hin, hd⟩

/-- C9: `get_dns_challenges` selects a challenge from an authorization only
when the authorization's wildcard flag agrees with the host's wildcard
prefix (and the identifier matches the wildcard-stripped host, compared
case-insensitively as the code does). -/
theorem get_dns_challenges_wildcard_agreement :
    ∀ (host : String) (authzs : List Authz) (ch : Challenge),
      ch ∈ get_dns_challenges host authzs →
      ∃ a, a ∈ authzs ∧ ch ∈ a.challenges ∧ ch.isDNS01 = true ∧
        a.wildcard = (strip_wildcard host).2 ∧
        pyLower a.identifier = pyLower (strip_wildcard host).1 := by
  intro host authzs ch h
  obtain ⟨a, ha, hin, hd, hid, hw⟩ := mem_get_dns_challenges.mp h
  exact ⟨a, ha, hin, hd, hw, hid⟩

/-- C9 witness: for wildcard host `*.example.com`, the DNS-01 challenge of a
wildcard-true authorization with identifier `example.com` is selected, and
the theorem produces its authorization with agreeing wildcard flag. -/
theorem get_dns_challenges_wildcard_agreement_witness :
    ∃ a, a ∈ [(⟨"example.com", true, [⟨true, "tkn"⟩]⟩ : Authz)] ∧
      (⟨true, "tkn"⟩ : Challenge) ∈ a.challenges ∧
      (⟨true, "tkn"⟩ : Challenge).isDNS01 = true ∧
      a.wildcard = (strip_wildcard "*.example.com").2 ∧
      pyLower a.identifier = pyLower (strip_wildcard "*.example.com").1 :=
  get_dns_challenges_wildcard_agreement "*.example.com"
    [⟨"example.com", true, [⟨true, "tkn"⟩]⟩] ⟨true, "tkn"⟩ (by decide)

/-- C10 (implicit): identifier matching in `get_dns_challenges` is
case-insensitive: an authorization whose identifier agrees with the
wildcard-stripped host up to letter case (equal after lowercasing) still has
its DNS-01 challenges selected, so selection is invariant under changing the
case of either the requested host or the identifier. -/
theorem get_dns_challenges_case_insensitive :
    ∀ (host : String) (authzs : List Authz) (a : Authz) (ch : Challenge),
      a ∈ authzs → ch ∈ a.challenges → ch.isDNS01 = true →
      pyLower a.identifier = pyLower (strip_wildcard host).1 →
      a.wildcard = (strip_wildcard host).2 →
      ch ∈ get_dns_challenges host authzs := by
  intro host authzs a ch ha hin hd hid hw
  exact mem_get_dns_challenges.mpr ⟨a, ha, hin, hd, hid, hw⟩

/-- C10 witness: host `eXample.Com` and identifier `EXAMPLE.com` differ from
each other only in letter case, and the challenge is still selected. -/
theorem get_dns_challenges_case_insensitive_witness :
    (⟨true, "t2"⟩ : Challenge) ∈
      get_dns_challenges "eXample.Com" [⟨"EXAMPLE.com", false, [⟨true, "t2"⟩]⟩] :=
  get_dns_challenges_case_insensitive "eXample.Com"
    [⟨"EXAMPLE.com", false, [⟨true, "t2"⟩]⟩] ⟨"EXAMPLE.com", false, [⟨true, "t2"⟩]⟩
    ⟨true, "t2"⟩ (by decide) (by decide) (by decide) (by decide) (by decide)

/-! ### start_dns_challenge

Source (`acme_handlers.py`, lines 295-332):

    change_ids = []
    dns_challenges = self.get_dns_challenges(domain, order.authorizations)
    host_to_validate, _ = self.strip_wildcard(target_domain)
    host_to_validate = self.maybe_add_extension(host_to_validate, dns_provider_options)
    if not dns_challenges:
        raise Exception("Unable to determine DNS challenges from authorizations")
    for dns_challenge in dns_challenges:
        # Only prepend '_acme-challenge' if not using CNAME redirection
        if domain == target_domain:
            host_to_validate = dns_challenge.validation_domain_name(host_to_validate)
        change_id = dns_provider.create_txt_record(
            host_to_validate,
            dns_challenge.validation(acme_client.client.net.key),
            account_number)
        change_ids.append(change_id)
    return AuthorizationRecord(domain, target_domain, order.authorizations,
                               dns_challenges, change_ids)

Note that `host_to_validate` is reassigned inside the loop, so with several
challenges and `domain == target_domain` the `_acme-challenge.` label
accumulates. The provider's `create_txt_record` is abstracted by recording
its (hostname, token) argument pair as the change id. -/

/-- Embedding of `start_dns_challenge` (`acme_handlers.py:295`); `.error`
stands for the raised `Exception("Unable to determine DNS challenges...")`. -/
def start_dns_challenge (domain target_domain : String) (authzs : List Authz)
    (ext : Option String) : Except String AuthorizationRecord :=
  let dns_challenges := get_dns_challenges domain authzs
  let host0 := maybe_add_extension (strip_wildcard target_domain).1 ext
  if dns_challenges = [] then
    .error "Unable to determine DNS challenges from authorizations"
  else
    let r := dns_challenges.foldl
      (fun (st : String × List (String × String)) ch =>
        let h := if domain = target_domain then validation_domain_name st.1 else st.1
        (h, st.2 ++ [(h, ch.token)]))
      (host0, [])
    .ok ⟨domain, target_domain, dns_challenges, r.2⟩

/-- C3 (code bug): with `domain == target_domain` and two DNS-01 challenges
for the domain, the second TXT record is created at
`_acme-challenge._acme-challenge.foo.example.com` — the challenge label
accumulates because `host_to_validate` is reassigned across loop
iterations — contradicting the claim that every record is created with the
label prepended exactly once. With a single challenge the claim's expected
behavior holds: exactly one change id at `_acme-challenge.foo.example.com`. -/
theorem start_dns_challenge_label_accumulates :
    (start_dns_challenge "foo.example.com" "foo.example.com"
        [⟨"foo.example.com", false, [⟨true, "tokenOne"⟩, ⟨true, "tokenTwo"⟩]⟩] none) =
      .ok ⟨"foo.example.com", "foo.example.com",
        [⟨true, "tokenOne"⟩, ⟨true, "tokenTwo"⟩],
        [("_acme-challenge.foo.example.com", "tokenOne"),
         ("_acme-challenge._acme-challenge.foo.example.com", "tokenTwo")]⟩ ∧
    (start_dns_challenge "foo.example.com" "foo.example.com"
        [⟨"foo.example.com", false, [⟨true, "tokenOne"⟩]⟩] none) =
      .ok ⟨"foo.example.com", "foo.example.com", [⟨true, "tokenOne"⟩],
        [("_acme-challenge.foo.example.com", "tokenOne")]⟩ := by
  constructor
  · rfl
  · rfl

/-! ### ultradns.py: create_txt_record

Source (`ultradns.py`, lines 178-213):

    zone_name = get_zone_name(domain, account_number)
    zone_parts = len(zone_name.split("."))
    node_name = ".".join(domain.split(".")[:-zone_parts])
    fqdn = "{0}.{1}".format(node_name, zone_name)
    params = {"ttl": 5, "rdata": [token]}
    try:
        _post(path, params)
    except Exception as e:
        current_app.logger.debug("Unable to add record. ... Record already exists: ...")
    change_id = (fqdn, token)
    return change_id

The outcome of the `_post` backend call is abstracted as the Boolean
`postRaises` (true when the call raises, for any reason); the `except`
clause swallows every exception, so the result cannot depend on it. -/

/-- Embedding of `create_txt_record` (`ultradns.py:178`); `.error` stands
for the `ZoneNotFound` exception propagating out of `get_zone_name`. -/
def create_txt_record (domain token : String) (zones : List String)
    (postRaises : Bool) : Except String (String × String) :=
  match get_zone_name domain zones with
  | none => .error ("No UltraDNS zone found for domain: " ++ domain)
  | some zone_name =>
    let zone_parts := (pySplitDot zone_name).length
    let parts := pySplitDot domain
    let node_name := joinDot (parts.take (parts.length - zone_parts))
    let fqdn := node_name ++ "." ++ zone_name
    .ok (fqdn, token)

/-- C8 counterexample: an unrecoverable backend error during creation
(`postRaises = true`, e.g. a persistent 5xx from the `_post` call) does not
make `create_txt_record` fail: it still returns the change id, contrary to
the claim that unrecoverable backend errors surface as a `ProviderError`. -/
theorem create_txt_record_cex :
    create_txt_record "_acme-challenge.foo.example.com" "tok" ["example.com"] true =
      .ok ("_acme-challenge.foo.example.com", "tok") := by
  rfl

/-- C8 (amended): `create_txt_record` swallows every error of the creation
call (logging it as a presumed duplicate) — its result is independent of the
backend call's outcome — and returns the change id `(fqdn, token)` whenever
a zone matches the domain; the only failure it can surface is `ZoneNotFound`
from zone resolution. -/
theorem create_txt_record_spec :
    ∀ (domain token : String) (zones : List String) (b1 b2 : Bool),
      create_txt_record domain token zones b1 = create_txt_record domain token zones b2 ∧
      ((get_zone_name domain zones).isSome = true →
        ∃ fqdn, create_txt_record domain token zones b1 = .ok (fqdn, token)) ∧
      (get_zone_name domain zones = none →
        create_txt_record domain token zones b1 =
          .error ("No UltraDNS zone found for domain: " ++ domain)) := by
  intro domain token zones b1 b2
  refine ⟨rfl, ?_, ?_⟩
  · intro hsome
    unfold create_txt_record
    cases h : get_zone_name domain zones with
    | none => rw [h] at hsome; exact absurd hsome (by simp)
    | some zone_name => exact ⟨_, rfl⟩
  · intro hnone
    unfold create_txt_record
    rw [hnone]

/-- C8 witness: instantiation of the amended statement at a concrete domain
and zone list, backend outcomes differing. -/
theorem create_txt_record_spec_witness :
    ∃ fqdn, create_txt_record "_acme-challenge.lemur.example.com" "tok2"
        ["example.com"] false = .ok (fqdn, "tok2") :=
  (create_txt_record_spec "_acme-challenge.lemur.example.com" "tok2"
    ["example.com"] false true).2.1 (by decide)

/-! ### ultradns.py: delete_txt_record

Source (`ultradns.py`, lines 216-261):

    if not domain:
        return
    zone_name = get_zone_name(domain, account_number)   # may raise ZoneNotFound
    ...
    try:
        rrsets = _get(path)
        record = Record(rrsets)
    except Exception as e:
        # No Text Records remain or host is not in the zone anymore
        return
    try:
        record.rdata.remove("{}".format(token))
    except ValueError:
        return
    _delete(path)
    if len(record.rdata) > 0:
        _post(path, {"ttl": 5, "rdata": record.rdata})

The remote state of the TXT record set at the record's (zone, node) is
embedded as `Option (List String)`: `none` when no record set exists (the
`_get` then raises, which the code absorbs), `some rdata` otherwise.
`list.remove` removes the first occurrence and raises `ValueError` when the
token is absent, which the code absorbs. The function returns the new remote
state. -/

/-- Embedding of `delete_txt_record` (`ultradns.py:216`); `.error` stands
for the `ZoneNotFound` exception propagating out of `get_zone_name`. -/
def delete_txt_record (domain token : String) (zones : List String)
    (st : Option (List String)) : Except String (Option (List String)) :=
  if domain = "" then .ok st
  else
    match get_zone_name domain zones with
    | none => .error ("No UltraDNS zone found for domain: " ++ domain)
    | some _ =>
      match st with
      | none => .ok none
      | some rdata =>
        if token ∈ rdata then
          let remaining := rdata.erase token
          if 0 < remaining.length then .ok (some remaining) else .ok none
        else .ok (some rdata)

/-- C7: record-set deletion is idempotent over the remote record-set state
(for a record hostname within a managed zone): deleting a token not present
leaves the state unchanged and is not an error; deleting the last remaining
token removes the record set and does not recreate it; deleting one token
out of several removes the set and recreates it with exactly the remaining
values (the first occurrence of the token removed). -/
theorem delete_txt_record_idempotent :
    ∀ (domain token : String) (zones : List String),
      domain ≠ "" → (get_zone_name domain zones).isSome = true →
      (∀ st, (∀ rdata, st = some rdata → token ∉ rdata) →
        delete_txt_record domain token zones st = .ok st) ∧
      (delete_txt_record domain token zones (some [token]) = .ok none) ∧
      (∀ rdata, token ∈ rdata → 2 ≤ rdata.length →
        delete_txt_record domain token zones (some rdata) =
          .ok (some (rdata.erase token))) := by
  intro domain token zones hdom hz
  obtain ⟨z, hz'⟩ : ∃ z, get_zone_name domain zones = some z := by
    cases h : get_zone_name domain zones with
    | none => rw [h] at hz; exact absurd hz (by simp)
    | some z => exact ⟨z, rfl⟩
  refine ⟨?_, ?_, ?_⟩
  · intro st hst
    unfold delete_txt_record
    rw [if_neg hdom, hz']
    cases st with
    | none => rfl
    | some rdata =>
      dsimp only
      rw [if_neg (hst rdata rfl)]
  · unfold delete_txt_record
    rw [if_neg hdom, hz']
    dsimp only
    rw [if_pos (List.mem_singleton_self token)]
    have h1 : ([token].erase token) = [] := by simp
    rw [h1]
    rfl
  · intro rdata hmem hlen
    unfold delete_txt_record
    rw [if_neg hdom, hz']
    dsimp only
    rw [if_pos hmem]
    have herase : (rdata.erase token).length = rdata.length - 1 :=
      List.length_erase_of_mem hmem
    rw [if_pos (by omega)]

/-- C7 witness: deleting token `a` from the two-value set `[a, b]` under
zone `example.com` removes the set and recreates it containing exactly
`[b]`. -/
theorem delete_txt_record_idempotent_witness :
    delete_txt_record "_acme-challenge.x.example.com" "a" ["example.com"]
        (some ["a", "b"]) = .ok (some ["b"]) := by
  have h := (delete_txt_record_idempotent "_acme-challenge.x.example.com" "a"
    ["example.com"] (by decide) (by decide)).2.2 ["a", "b"] (by decide) (by decide)
  simpa using h

/-! ### acme_handlers.py: get_dns_provider and cleanup_dns_challenges

Source of `get_dns_provider` (`acme_handlers.py`, lines 282-293): looks the
provider type up in a fixed table and raises `UnknownProvider` otherwise.

Source of `cleanup_dns_challenges` (`acme_handlers.py`, lines 469-509):

    for authz_record in authorizations:
        dns_providers = self.dns_providers_for_domain.get(authz_record.target_domain)
        for dns_provider in dns_providers:          # TypeError if None
            dns_provider_options = json.loads(dns_provider.credentials)
            account_number = dns_provider_options.get("account_id")
            dns_challenges = authz_record.dns_challenge
            host_to_validate, _ = self.strip_wildcard(authz_record.target_domain)
            host_to_validate = self.maybe_add_extension(host_to_validate, dns_provider_options)
            dns_provider_plugin = self.get_dns_provider(dns_provider.provider_type)
            for dns_challenge in dns_challenges:
                if authz_record.domain == authz_record.target_domain:
                    host_to_validate = dns_challenge.validation_domain_name(host_to_validate)
                try:
                    dns_provider_plugin.delete_txt_record(... host_to_validate,
                        dns_challenge.validation(...))
                except Exception as e:
                    metrics.send("cleanup_dns_challenges_error", "counter", 1)
                    pass

The `dns_providers_for_domain` mapping is passed as `table`; provider
credentials are modelled structurally (`DnsProvider.ext`). Each attempted
provider deletion is recorded as `(pid, hostname, token, raised)` where
`raised` is given by the oracle `f` (whether that deletion call raised); the
`except: pass` absorbs the outcome, so processing continues either way. On a
raising path (missing table entry, unknown provider type) the embedding
returns `.error` for the propagating Python exception. -/

/-- The provider-type table of `get_dns_provider` (`acme_handlers.py:283`). -/
def known_provider_types : List String :=
  ["cloudflare", "dyn", "route53", "ultradns", "powerdns"]

/-- Embedding of `get_dns_provider` (`acme_handlers.py:282`); `.error`
stands for the raised `UnknownProvider`. -/
def get_dns_provider (t : String) : Except String String :=
  if t ∈ known_provider_types then .ok t
  else .error ("No such DNS provider: " ++ t)

/-- One attempted provider deletion during cleanup: provider id, hostname
and token passed to `delete_txt_record`, and whether that call raised (the
exception being absorbed). -/
abbrev CleanupCall := Nat × String × String × Bool

/-- Inner challenge-loop body of `cleanup_dns_challenges`: threads the
mutable `host_to_validate` (which accumulates the challenge label exactly as
in `start_dns_challenge`) and the list of attempted deletion calls. -/
def clStep (f : String → String → Bool) (ar : AuthorizationRecord)
    (p : DnsProvider) (st : String × List CleanupCall) (ch : Challenge) :
    String × List CleanupCall :=
  let h := if ar.domain = ar.target_domain then validation_domain_name st.1 else st.1
  (h, st.2 ++ [(p.pid, h, ch.token, f h ch.token)])

/-- The deletion calls attempted for one (authorization record, provider)
pair in `cleanup_dns_challenges`. -/
def cleanupProvider (f : String → String → Bool) (ar : AuthorizationRecord)
    (p : DnsProvider) : List CleanupCall :=
  (ar.dns_challenge.foldl (clStep f ar p)
    (maybe_add_extension (strip_wildcard ar.target_domain).1 p.ext, [])).2

/-- Provider loop of `cleanup_dns_challenges`. -/
def cleanupProviders (f : String → String → Bool) (ar : AuthorizationRecord) :
    List CleanupCall → List DnsProvider → Except String (List CleanupCall)
  | acc, [] => .ok acc
  | acc, p :: ps =>
    match get_dns_provider p.provider_type with
    | .error e => .error e
    | .ok _ => cleanupProviders f ar (acc ++ cleanupProvider f ar p) ps

/-- Authorization-record loop of `cleanup_dns_challenges`. -/
def cleanupAuths (table : String → Option (List DnsProvider))
    (f : String → String → Bool) :
    List CleanupCall → List AuthorizationRecord → Except String (List CleanupCall)
  | acc, [] => .ok acc
  | acc, ar :: ars =>
    match table ar.target_domain with
    | none => .error "TypeError: NoneType object is not iterable"
    | some provs =>
      match cleanupProviders f ar acc provs with
      | .error e => .error e
      | .ok acc2 => cleanupAuths table f acc2 ars

/-- Embedding of `cleanup_dns_challenges` (`acme_handlers.py:469`): returns
the attempted deletion calls, or `.error` when a Python exception propagates
out of the function. -/
def cleanup_dns_challenges (table : String → Option (List DnsProvider))
    (f : String → String → Bool) (auths : List AuthorizationRecord) :
    Except String (List CleanupCall) :=
  cleanupAuths table f [] auths

/-- Forgets the absorbed outcome flag of an attempted deletion call. -/
def dropOutcome (c : CleanupCall) : Nat × String × String :=
  (c.1, c.2.1, c.2.2.1)

/-- Declarative form of the calls `cleanup_dns_challenges` attempts: one
deletion per (record, provider, challenge) triple, in order. -/
def expectedCleanupCalls (table : String → Option (List DnsProvider))
    (f : String → String → Bool) (auths : List AuthorizationRecord) :
    List CleanupCall :=
  auths.flatMap (fun ar =>
    ((table ar.target_domain).getD []).flatMap (fun p => cleanupProvider f ar p))

/-! ### cleanup_dns_challenges lemmas -/

lemma get_dns_provider_known {t : String} (h : t ∈ known_provider_types) :
    get_dns_provider t = .ok t := by
  unfold get_dns_provider
  rw [if_pos h]

lemma clStep_fold_outcome (f g : String → String → Bool)
    (ar : AuthorizationRecord) (p : DnsProvider) :
    ∀ (chs : List Challenge) (h : String) (acc1 acc2 : List CleanupCall),
      acc1.map dropOutcome = acc2.map dropOutcome →
      (chs.foldl (clStep f ar p) (h, acc1)).1 = (chs.foldl (clStep g ar p) (h, acc2)).1 ∧
      (chs.foldl (clStep f ar p) (h, acc1)).2.map dropOutcome =
        (chs.foldl (clStep g ar p) (h, acc2)).2.map dropOutcome := by
  intro chs
  induction chs with
  | nil => intro h acc1 acc2 hacc; exact ⟨rfl, hacc⟩
  | cons ch chs ih =>
    intro h acc1 acc2 hacc
    simp only [List.foldl_cons]
    apply ih
    simp only [clStep, List.map_append, hacc]
    rfl

lemma cleanupProvider_outcome (f g : String → String → Bool)
    (ar : AuthorizationRecord) (p : DnsProvider) :
    (cleanupProvider f ar p).map dropOutcome =
      (cleanupProvider g ar p).map dropOutcome := by
  unfold cleanupProvider
  exact (clStep_fold_outcome f g ar p ar.dns_challenge _ [] [] rfl).2

lemma cleanupProviders_ok (f : String → String → Bool)
    (ar : AuthorizationRecord) :
    ∀ (ps : List DnsProvider) (acc : List CleanupCall),
      (∀ p ∈ ps, p.provider_type ∈ known_provider_types) →
      cleanupProviders f ar acc ps =
        .ok (acc ++ ps.flatMap (fun p => cleanupProvider f ar p)) := by
  intro ps
  induction ps with
  | nil => intro acc _; simp [cleanupProviders]
  | cons p ps ih =>
    intro acc hknown
    unfold cleanupProviders
    rw [get_dns_provider_known (hknown p (List.mem_cons_self p ps))]
    rw [ih (acc ++ cleanupProvider f ar p) (fun q hq => hknown q (List.mem_cons_of_mem p hq))]
    rw [List.flatMap_cons, List.append_assoc]

lemma cleanupAuths_ok (table : String → Option (List DnsProvider))
    (f : String → String → Bool) :
    ∀ (ars : List AuthorizationRecord) (acc : List CleanupCall),
      (∀ ar ∈ ars, ∃ provs, table ar.target_domain = some provs ∧
        ∀ p ∈ provs, p.provider_type ∈ known_provider_types) →
      cleanupAuths table f acc ars = .ok (acc ++ expectedCleanupCalls table f ars) := by
  intro ars
  induction ars with
  | nil => intro acc _; simp [cleanupAuths, expectedCleanupCalls]
  | cons ar ars ih =>
    intro acc hyp
    obtain ⟨provs, hprovs, hknown⟩ := hyp ar (List.mem_cons_self ar ars)
    unfold cleanupAuths
    rw [hprovs]
    dsimp only
    rw [cleanupProviders_ok f ar provs acc hknown]
    dsimp only
    rw [ih _ (fun a ha => hyp a (List.mem_cons_of_mem ar ha))]
    unfold expectedCleanupCalls
    rw [List.flatMap_cons, hprovs]
    simp [List.append_assoc]

lemma map_dropOutcome_flatMap {α : Type} (l : List α)
    (F G : α → List CleanupCall)
    (h : ∀ a ∈ l, (F a).map dropOutcome = (G a).map dropOutcome) :
    (l.flatMap F).map dropOutcome = (l.flatMap G).map dropOutcome := by
  induction l with
  | nil => rfl
  | cons a l ih =>
    simp only [List.flatMap_cons, List.map_append]
    rw [h a (List.mem_cons_self a l), ih (fun b hb => h b (List.mem_cons_of_mem a hb))]

/-- C6 counterexample: `cleanup_dns_challenges` can raise: when an
authorization record's target domain has no entry in
`dns_providers_for_domain`, `dict.get` returns `None` and the provider loop
raises a `TypeError` — contradicting the claim that cleanup never raises
for every list of authorization records. -/
theorem cleanup_dns_challenges_cex :
    cleanup_dns_challenges (fun _ => none) (fun _ _ => false)
        [⟨"a.example.com", "a.example.com", [⟨true, "t"⟩],
          [("_acme-challenge.a.example.com", "t")]⟩] =
      .error "TypeError: NoneType object is not iterable" := by
  rfl

/-- C6 (amended): provided every record's target domain is present in the
provider mapping and all its providers have a known provider type (as holds
for records produced by `get_authorizations`), `cleanup_dns_challenges`
never raises and attempts exactly one deletion call per (record, provider,
challenge) triple — the hostnames being recomputed exactly as during
creation — and the attempted calls are independent of which individual
deletions fail, since each deletion exception is absorbed and the remaining
records are still processed. -/
theorem cleanup_dns_challenges_spec :
    ∀ (table : String → Option (List DnsProvider))
      (f g : String → String → Bool) (auths : List AuthorizationRecord),
      (∀ ar ∈ auths, ∃ provs, table ar.target_domain = some provs ∧
        ∀ p ∈ provs, p.provider_type ∈ known_provider_types) →
      cleanup_dns_challenges table f auths = .ok (expectedCleanupCalls table f auths) ∧
      (expectedCleanupCalls table f auths).map dropOutcome =
        (expectedCleanupCalls table g auths).map dropOutcome := by
  intro table f g auths hyp
  constructor
  · unfold cleanup_dns_challenges
    rw [cleanupAuths_ok table f auths [] hyp]
    rfl
  · unfold expectedCleanupCalls
    apply map_dropOutcome_flatMap
    intro ar _
    apply map_dropOutcome_flatMap
    intro p _
    exact cleanupProvider_outcome f g ar p

/-- C6 witness: cleanup of one record under a one-provider mapping, with a
deletion oracle that always fails versus one that never fails: the attempted
calls coincide and no exception escapes. -/
theorem cleanup_dns_challenges_spec_witness :
    cleanup_dns_challenges
        (fun d => if d = "foo.example.com"
          then some [⟨1, "ultradns", ["example.com"], none⟩] else none)
        (fun _ _ => true)
        [⟨"foo.example.com", "foo.example.com", [⟨true, "tokA"⟩],
          [("_acme-challenge.foo.example.com", "tokA")]⟩] =
      .ok (expectedCleanupCalls
        (fun d => if d = "foo.example.com"
          then some [⟨1, "ultradns", ["example.com"], none⟩] else none)
        (fun _ _ => true)
        [⟨"foo.example.com", "foo.example.com", [⟨true, "tokA"⟩],
          [("_acme-challenge.foo.example.com", "tokA")]⟩]) ∧
    (expectedCleanupCalls
        (fun d => if d = "foo.example.com"
          then some [⟨1, "ultradns", ["example.com"], none⟩] else none)
        (fun _ _ => true)
        [⟨"foo.example.com", "foo.example.com", [⟨true, "tokA"⟩],
          [("_acme-challenge.foo.example.com", "tokA")]⟩]).map dropOutcome =
      (expectedCleanupCalls
        (fun d => if d = "foo.example.com"
          then some [⟨1, "ultradns", ["example.com"], none⟩] else none)
        (fun _ _ => false)
        [⟨"foo.example.com", "foo.example.com", [⟨true, "tokA"⟩],
          [("_acme-challenge.foo.example.com", "tokA")]⟩]).map dropOutcome := by
  apply cleanup_dns_challenges_spec
  intro ar har
  rcases List.mem_singleton.mp har with h
  subst h
  exact ⟨[⟨1, "ultradns", ["example.com"], none⟩], rfl, by decide⟩

end LemurAcme
